import Mathlib

/-!
Shallow embedding of the crash-log core of ArduinoCrashMonitor
(src/CrashTracking/ApplicationMonitor.h / .cpp).

The EEPROM is modelled as a byte store `Nat → Nat`; every read reduces the
stored value modulo 256, matching `eeprom_read_byte`, and every write stores
the value modulo 256, matching `eeprom_write_byte` on a `uint8_t`.
`PROGRAM_COUNTER_SIZE` is a compile-time platform constant (2 or 3 bytes);
it is carried here as an explicit parameter `pc`.  The packed persisted
structures are serialised exactly as on the AVR target (little endian):
a header is the two bytes `[m_uSavedReports, m_uNextReport]`, a report is
the `pc` address bytes followed by the four little-endian bytes of the
32-bit `m_uData` field.  `uint8_t` fields and `uint32_t` values are
represented as `Nat` together with the corresponding `% 256` / `% 2 ^ 32`
reductions at exactly the points where the C++ types force them.
-/

namespace Watchdog

/-- The byte-addressable non-volatile store (AVR EEPROM). -/
def EEPROM : Type := Nat → Nat

/-- Header persisted at the base address: number of saved reports and the
slot that receives the next report.  Both fields are `uint8_t`. -/
structure CApplicationMonitorHeader where
  m_uSavedReports : Nat
  m_uNextReport : Nat
deriving DecidableEq, Repr

/-- One crash report: `PROGRAM_COUNTER_SIZE` raw address bytes (a fixed
`uint8_t` array in the source, a list with that length here) and the
32-bit user data word. -/
structure CCrashReport where
  m_auAddress : List Nat
  m_uData : Nat
deriving DecidableEq, Repr

/-- The application monitor object: eeprom base address, maximum number of
log entries, and the in-memory in-progress crash report. -/
structure CApplicationMonitor where
  c_nBaseAddress : Nat
  c_nMaxEntries : Nat
  m_CrashReport : CCrashReport
deriving DecidableEq, Repr

/-- `sizeof(CApplicationMonitorHeader)`: two packed `uint8_t` fields. -/
def sizeofHeader : Nat := 2

/-- `sizeof(CCrashReport)` for a given `PROGRAM_COUNTER_SIZE`: the packed
address bytes plus the four bytes of `m_uData`. -/
def sizeofReport (pc : Nat) : Nat := pc + 4

/-- The `n` little-endian bytes of a value, as written by `memcpy` of an
integer on the little-endian AVR target. -/
def toBytesLE : Nat → Nat → List Nat
  | 0, _ => []
  | n + 1, v => v % 256 :: toBytesLE n (v / 256)

/-- Recompose a little-endian byte list into a number (the effect of
`memcpy` into a zero-initialised integer on the AVR target). -/
def fromBytesLE : List Nat → Nat
  | [] => 0
  | b :: bs => b % 256 + 256 * fromBytesLE bs

/-- `CApplicationMonitor::ReadBlock`: read `n` consecutive bytes starting
at `addr`. -/
def readBytes (e : EEPROM) : Nat → Nat → List Nat
  | _, 0 => []
  | addr, n + 1 => e addr % 256 :: readBytes e (addr + 1) n

/-- `CApplicationMonitor::WriteBlock`: write the given bytes at consecutive
addresses starting at `addr`. -/
def writeBytes : EEPROM → Nat → List Nat → EEPROM
  | e, _, [] => e
  | e, addr, b :: bs => writeBytes (fun a => if a = addr then b % 256 else e a) (addr + 1) bs

/-- `CApplicationMonitor::GetAddressForReport` (ApplicationMonitor.cpp,
lines 178-186): base address plus header size, plus the slot offset when
the slot index is in range. -/
def GetAddressForReport (base M pc nReport : Nat) : Nat :=
  let nAddress := base + sizeofHeader
  if nReport < M then nAddress + nReport * sizeofReport pc else nAddress

/-- The header sanitation performed inside `CApplicationMonitor::LoadHeader`
(ApplicationMonitor.cpp, lines 146-153): the `0xff` erased sentinel becomes
0, a count above `c_nMaxEntries` is clamped to it (a `uint8_t` assignment,
hence the `% 256`), and an out-of-range next-slot index is reset to 0. -/
def sanitizeHeader (M : Nat) (h : CApplicationMonitorHeader) : CApplicationMonitorHeader :=
  let saved :=
    if h.m_uSavedReports = 255 then 0
    else if M < h.m_uSavedReports then M % 256
    else h.m_uSavedReports
  let next := if M ≤ h.m_uNextReport then 0 else h.m_uNextReport
  { m_uSavedReports := saved, m_uNextReport := next }

/-- The raw header bytes at the base address, as read by `ReadBlock` into
the packed two-byte header structure. -/
def readHeader (e : EEPROM) (base : Nat) : CApplicationMonitorHeader :=
  { m_uSavedReports := e base % 256, m_uNextReport := e (base + 1) % 256 }

/-- `CApplicationMonitor::LoadHeader`: read the raw header and sanitize it. -/
def LoadHeader (e : EEPROM) (base M : Nat) : CApplicationMonitorHeader :=
  sanitizeHeader M (readHeader e base)

/-- `CApplicationMonitor::SaveHeader`: write the two packed header bytes at
the base address. -/
def SaveHeader (e : EEPROM) (base : Nat) (h : CApplicationMonitorHeader) : EEPROM :=
  writeBytes e base [h.m_uSavedReports, h.m_uNextReport]

/-- The packed byte image of a crash report: address bytes first, then the
four little-endian bytes of `m_uData`. -/
def reportBytes (r : CCrashReport) : List Nat :=
  r.m_auAddress ++ toBytesLE 4 r.m_uData

/-- `CApplicationMonitor::SaveCurrentReport`: write the packed report at
the slot address. -/
def SaveCurrentReport (base M pc : Nat) (r : CCrashReport) (e : EEPROM) (slot : Nat) : EEPROM :=
  writeBytes e (GetAddressForReport base M pc slot) (reportBytes r)

/-- The in-place swap of the first and last address byte performed by
`CApplicationMonitor::LoadReport` (lines 170-175): `a[0]` receives the old
`a[pc-1]` and `a[pc-1]` receives the old `a[0]`. -/
def swapFirstLast (pc : Nat) (l : List Nat) : List Nat :=
  (l.set 0 (l.getD (pc - 1) 0)).set (pc - 1) (l.getD 0 0)

/-- `CApplicationMonitor::LoadReport`: read the packed report from the slot
and reverse the byte order of the captured address. -/
def LoadReport (base M pc : Nat) (e : EEPROM) (nReport : Nat) : CCrashReport :=
  let bytes := readBytes e (GetAddressForReport base M pc nReport) (sizeofReport pc)
  { m_auAddress := swapFirstLast pc (bytes.take pc),
    m_uData := fromBytesLE (bytes.drop pc) }

/-- The constructor `CApplicationMonitor::CApplicationMonitor` (lines 48-52):
store the layout parameters and zero `m_uData`.  The address bytes of the
in-memory report are left uninitialised by the source, so their arbitrary
initial content is a parameter here. -/
def construct (base M : Nat) (junkAddress : List Nat) : CApplicationMonitor :=
  { c_nBaseAddress := base, c_nMaxEntries := M,
    m_CrashReport := { m_auAddress := junkAddress, m_uData := 0 } }

/-- `CApplicationMonitor::SetData`: store the 32-bit diagnostic word in the
in-memory report (the argument is a `uint32_t`, hence the reduction). -/
def SetData (m : CApplicationMonitor) (v : Nat) : CApplicationMonitor :=
  { m with m_CrashReport := { m.m_CrashReport with m_uData := v % 2 ^ 32 } }

/-- `CApplicationMonitor::GetData`: read the diagnostic word back. -/
def GetData (m : CApplicationMonitor) : Nat :=
  m.m_CrashReport.m_uData

/-- The header update of `WatchdogInterruptHandler` (lines 125-130):
increment the `uint8_t` next-slot index; on reaching `c_nMaxEntries` wrap
it to 0, otherwise also increment the `uint8_t` saved-report count. -/
def nextHeader (M : Nat) (h : CApplicationMonitorHeader) : CApplicationMonitorHeader :=
  let next2 := (h.m_uNextReport + 1) % 256
  if M ≤ next2 then { h with m_uNextReport := 0 }
  else { m_uSavedReports := (h.m_uSavedReports + 1) % 256, m_uNextReport := next2 }

/-- `CApplicationMonitor::WatchdogInterruptHandler` (lines 117-140): load
the sanitized header, copy `PROGRAM_COUNTER_SIZE` bytes of the faulting
address from the stack into the in-progress report, persist the report in
the slot named by the header, then persist the advanced header.  The final
re-arm and spin have no storage effect and are outside the state model. -/
def WatchdogInterruptHandler (pc : Nat) (m : CApplicationMonitor) (e : EEPROM)
    (stackBytes : List Nat) : CApplicationMonitor × EEPROM :=
  let Header := LoadHeader e m.c_nBaseAddress m.c_nMaxEntries
  let m2 := { m with m_CrashReport := { m.m_CrashReport with m_auAddress := stackBytes.take pc } }
  let e2 := SaveCurrentReport m.c_nBaseAddress m.c_nMaxEntries pc m2.m_CrashReport e
    Header.m_uNextReport
  (m2, SaveHeader e2 m.c_nBaseAddress (nextHeader m.c_nMaxEntries Header))

/-- A sequence of consecutive watchdog traps, each delivering the stack
bytes of the faulting address for that trap. -/
def runTraps (pc : Nat) (s : CApplicationMonitor × EEPROM) :
    List (List Nat) → CApplicationMonitor × EEPROM
  | [] => s
  | t :: ts => runTraps pc (WatchdogInterruptHandler pc s.1 s.2 t) ts

/-- One atomic emission to the `Print` output sink used by `Dump`. -/
inductive PrintEvent where
  | text : String → PrintEvent
  | num : Nat → Nat → PrintEvent
  | newline : PrintEvent
deriving DecidableEq, Repr

/-- `CApplicationMonitor::PrintValue` (lines 108-115): label, value in the
given radix, optional newline. -/
def PrintValue (label : String) (v radix : Nat) (newLine : Bool) : List PrintEvent :=
  [PrintEvent.text label, PrintEvent.num v radix] ++
    if newLine then [PrintEvent.newline] else []

/-- The body of the report loop in `Dump` (lines 94-104): slot index, the
captured address recomposed from its bytes as a word address, the doubled
byte address (a `uint32_t` product), and the user data word. -/
def dumpReportLines (base M pc : Nat) (e : EEPROM) (uReport : Nat) : List PrintEvent :=
  let Report := LoadReport base M pc e uReport
  let uAddress := fromBytesLE Report.m_auAddress
  PrintEvent.num uReport 10 ::
    (PrintValue (": word-address=0x") uAddress 16 false ++
     PrintValue (": byte-address=0x") (uAddress * 2 % 2 ^ 32) 16 false ++
     PrintValue (", data=0x") Report.m_uData 16 true)

/-- The `for (uReport = 0; uReport < m_uSavedReports; ++uReport)` loop of
`Dump`, written as the source writes it: count up from `uReport`. -/
def dumpLoop (base M pc : Nat) (e : EEPROM) (saved uReport : Nat) : List PrintEvent :=
  if _h : uReport < saved then
    dumpReportLines base M pc e uReport ++ dumpLoop base M pc e saved (uReport + 1)
  else []
termination_by saved - uReport

/-- `CApplicationMonitor::Dump` (lines 79-106): nothing at all when
`bOnlyIfPresent` is set and the sanitized header counts zero reports;
otherwise the banner, the two header counters, and one block of lines per
saved report, for slots 0 up to the saved count. -/
def Dump (base M pc : Nat) (e : EEPROM) (bOnlyIfPresent : Bool) : List PrintEvent :=
  let Header := LoadHeader e base M
  if !bOnlyIfPresent || Header.m_uSavedReports != 0 then
    [PrintEvent.text ("Application Monitor"), PrintEvent.newline,
     PrintEvent.text ("-------------------"), PrintEvent.newline] ++
    PrintValue ("Saved reports: ") Header.m_uSavedReports 10 true ++
    PrintValue ("Next report: ") Header.m_uNextReport 10 true ++
    dumpLoop base M pc e Header.m_uSavedReports 0
  else []

/-- The raw persisted saved-report count after `k` consecutive traps that
started from a sanitized-empty header (specification device used to state
the trap-sequence invariant): it tracks `k` while the log fills, misses
the increment on the trap that first wraps the slot index, and afterwards
alternates between `M` (on a wrapping trap) and `M + 1`. -/
def rawSaved (M k : Nat) : Nat :=
  if k < M then k
  else if k ≤ M + 1 then k - 1
  else if k % M = 0 then M else M + 1

/-- Invariant tying the persisted header after `j` traps to `rawSaved`:
the sanitized view is determined for every `j`, and from the first trap on
the raw bytes are determined as well. -/
def headerInv (base M j : Nat) (e : EEPROM) : Prop :=
  sanitizeHeader M (readHeader e base) =
    { m_uSavedReports := min (rawSaved M j) M, m_uNextReport := j % M } ∧
  (1 ≤ j → readHeader e base =
    { m_uSavedReports := rawSaved M j, m_uNextReport := j % M })

/-- A monitor whose diagnostic word was last set to `d` (specification
device for the trap-sequence scenario: layout parameters plus an arbitrary
current in-memory report). -/
def initialMonitor (base M d : Nat) (junk : List Nat) : CApplicationMonitor :=
  { c_nBaseAddress := base, c_nMaxEntries := M,
    m_CrashReport := { m_auAddress := junk, m_uData := d } }

/-! Helper lemmas about the byte store and the serialisations. -/

theorem writeBytes_outside :
    ∀ (l : List Nat) (e : EEPROM) (addr a : Nat),
      a < addr ∨ addr + l.length ≤ a → writeBytes e addr l a = e a := by
  intro l
  induction l with
  | nil => intro e addr a _; rfl
  | cons b bs ih =>
    intro e addr a h
    have h1 : writeBytes e addr (b :: bs) a =
        writeBytes (fun x => if x = addr then b % 256 else e x) (addr + 1) bs a := rfl
    rw [h1, ih]
    · have hne : a ≠ addr := by
        rcases h with h | h
        · omega
        · simp only [List.length_cons] at h; omega
      simp [hne]
    · rcases h with h | h
      · omega
      · simp only [List.length_cons] at h; omega

theorem writeBytes_getD :
    ∀ (l : List Nat) (e : EEPROM) (addr i : Nat),
      i < l.length → writeBytes e addr l (addr + i) = l.getD i 0 % 256 := by
  intro l
  induction l with
  | nil => intro e addr i h; simp at h
  | cons b bs ih =>
    intro e addr i h
    have h1 : writeBytes e addr (b :: bs) =
        writeBytes (fun x => if x = addr then b % 256 else e x) (addr + 1) bs := rfl
    match i with
    | 0 =>
      rw [h1]
      have h2 := writeBytes_outside bs
        (fun x => if x = addr then b % 256 else e x) (addr + 1) (addr + 0) (by omega)
      rw [h2]
      simp
    | i + 1 =>
      rw [h1]
      have h3 : addr + (i + 1) = (addr + 1) + i := by omega
      rw [h3, ih]
      · rfl
      · simp only [List.length_cons] at h; omega

theorem readBytes_congr :
    ∀ (n : Nat) (e1 e2 : EEPROM) (addr : Nat),
      (∀ i, i < n → e1 (addr + i) = e2 (addr + i)) →
      readBytes e1 addr n = readBytes e2 addr n := by
  intro n
  induction n with
  | zero => intro e1 e2 addr _; rfl
  | succ n ih =>
    intro e1 e2 addr h
    have h0 : e1 addr = e2 addr := by
      have := h 0 (by omega); simpa using this
    simp only [readBytes, h0]
    rw [ih]
    intro i hi
    have := h (1 + i) (by omega)
    have h4 : addr + (1 + i) = addr + 1 + i := by omega
    rw [h4] at this
    exact this

theorem readBytes_split (e : EEPROM) :
    ∀ (n k addr : Nat),
      readBytes e addr (n + k) = readBytes e addr n ++ readBytes e (addr + n) k := by
  intro n
  induction n with
  | zero => intro k addr; simp [readBytes]
  | succ n ih =>
    intro k addr
    have h1 : n + 1 + k = (n + k) + 1 := by omega
    rw [h1]
    simp only [readBytes, List.cons_append]
    rw [ih]
    have h2 : addr + 1 + n = addr + (n + 1) := by omega
    rw [h2]

theorem readBytes_writeBytes :
    ∀ (l : List Nat) (e : EEPROM) (addr : Nat),
      readBytes (writeBytes e addr l) addr l.length = l.map (fun b => b % 256) := by
  intro l
  induction l with
  | nil => intro e addr; rfl
  | cons b bs ih =>
    intro e addr
    have h1 : writeBytes e addr (b :: bs) =
        writeBytes (fun x => if x = addr then b % 256 else e x) (addr + 1) bs := rfl
    simp only [List.length_cons, readBytes, List.map_cons, h1]
    have h2 := writeBytes_outside bs
      (fun x => if x = addr then b % 256 else e x) (addr + 1) addr (by omega)
    rw [h2, ih]
    simp

theorem map_mod_self (l : List Nat) (h : ∀ b ∈ l, b < 256) :
    l.map (fun b => b % 256) = l := by
  induction l with
  | nil => rfl
  | cons b bs ih =>
    simp only [List.map_cons]
    rw [Nat.mod_eq_of_lt (h b (by simp)), ih (fun x hx => h x (by simp [hx]))]

theorem toBytesLE_length : ∀ (n v : Nat), (toBytesLE n v).length = n := by
  intro n
  induction n with
  | zero => intro v; rfl
  | succ n ih => intro v; simp [toBytesLE, ih]

theorem toBytesLE_lt : ∀ (n v : Nat), ∀ b ∈ toBytesLE n v, b < 256 := by
  intro n
  induction n with
  | zero => intro v b hb; simp [toBytesLE] at hb
  | succ n ih =>
    intro v b hb
    simp only [toBytesLE, List.mem_cons] at hb
    rcases hb with hb | hb
    · omega
    · exact ih _ b hb

theorem fromBytesLE_toBytesLE : ∀ (n v : Nat), fromBytesLE (toBytesLE n v) = v % 256 ^ n := by
  intro n
  induction n with
  | zero => intro v; simp [toBytesLE, fromBytesLE, Nat.mod_one]
  | succ n ih =>
    intro v
    simp only [toBytesLE, fromBytesLE, ih]
    have h1 : (256 : Nat) ^ (n + 1) = 256 * 256 ^ n := by ring
    rw [h1, Nat.mod_mul]
    omega

theorem readHeader_SaveHeader (e : EEPROM) (base : Nat) (h : CApplicationMonitorHeader) :
    readHeader (SaveHeader e base h) base =
      { m_uSavedReports := h.m_uSavedReports % 256, m_uNextReport := h.m_uNextReport % 256 } := by
  have h0 := writeBytes_getD [h.m_uSavedReports, h.m_uNextReport] e base 0 (by simp)
  have h1 := writeBytes_getD [h.m_uSavedReports, h.m_uNextReport] e base 1 (by simp)
  simp only [Nat.add_zero, List.getD_cons_zero, List.getD_cons_succ] at h0 h1
  unfold readHeader SaveHeader
  rw [h0, h1]
  simp only [CApplicationMonitorHeader.mk.injEq]
  omega

theorem GetAddressForReport_ge (base M pc n : Nat) :
    base + sizeofHeader ≤ GetAddressForReport base M pc n := by
  unfold GetAddressForReport
  split
  · exact Nat.le_add_right _ _
  · exact Nat.le_refl _

theorem readBytes_length (e : EEPROM) : ∀ (n addr : Nat), (readBytes e addr n).length = n := by
  intro n
  induction n with
  | zero => intro addr; rfl
  | succ n ih => intro addr; simp [readBytes, ih]

theorem readBytes_SaveHeader_high (e : EEPROM) (base : Nat) (h : CApplicationMonitorHeader)
    (a n : Nat) (ha : base + sizeofHeader ≤ a) :
    readBytes (SaveHeader e base h) a n = readBytes e a n := by
  apply readBytes_congr
  intro i _
  apply writeBytes_outside
  right
  simp only [sizeofHeader] at ha
  simp only [List.length_cons, List.length_nil]
  omega

theorem handler_report_data (pc : Nat) (m : CApplicationMonitor) (e : EEPROM)
    (t : List Nat) (ht : pc ≤ t.length) :
    GetData (WatchdogInterruptHandler pc m e t).1 = GetData m ∧
    readBytes (WatchdogInterruptHandler pc m e t).2
      (GetAddressForReport m.c_nBaseAddress m.c_nMaxEntries pc
        (LoadHeader e m.c_nBaseAddress m.c_nMaxEntries).m_uNextReport + pc) 4 =
      toBytesLE 4 (GetData m) := by
  constructor
  · rfl
  · have hge := GetAddressForReport_ge m.c_nBaseAddress m.c_nMaxEntries pc
      (LoadHeader e m.c_nBaseAddress m.c_nMaxEntries).m_uNextReport
    simp only [WatchdogInterruptHandler]
    rw [readBytes_SaveHeader_high _ _ _ _ _ (by omega)]
    unfold SaveCurrentReport reportBytes
    set A := GetAddressForReport m.c_nBaseAddress m.c_nMaxEntries pc
      (LoadHeader e m.c_nBaseAddress m.c_nMaxEntries).m_uNextReport with hAdef
    set L := t.take pc ++ toBytesLE 4 m.m_CrashReport.m_uData with hLdef
    have hlen1 : (t.take pc).length = pc := by
      simp only [List.length_take]
      omega
    have hL : L.length = pc + 4 := by
      simp [hLdef, hlen1, toBytesLE_length]
    have hall := readBytes_writeBytes L e A
    rw [hL, readBytes_split, hLdef, List.map_append] at hall
    have heq := List.append_inj_right hall
      (by rw [readBytes_length, List.length_map, hlen1])
    rw [← hLdef] at heq
    rw [heq]
    exact map_mod_self _ (toBytesLE_lt 4 _)

/-! Claim theorems. -/

/-- Claim C3: on every byte-valued raw header, the sanitation of
`LoadHeader` maps the `0xff` sentinel count to 0, clamps a count above
`maxEntries` to `maxEntries`, resets an out-of-range next index to 0, and
leaves everything else unchanged. -/
theorem C3_loadHeader_sanitation (M : Nat) (h : CApplicationMonitorHeader)
    (hs : h.m_uSavedReports < 256) :
    sanitizeHeader M h =
      { m_uSavedReports :=
          if h.m_uSavedReports = 255 then 0
          else if M < h.m_uSavedReports then M
          else h.m_uSavedReports,
        m_uNextReport := if M ≤ h.m_uNextReport then 0 else h.m_uNextReport } := by
  unfold sanitizeHeader
  simp only [CApplicationMonitorHeader.mk.injEq]
  constructor
  · split_ifs <;> omega
  · trivial

/-- Witness for C3: the all-ones sentinel with an out-of-range next index
sanitizes to the empty header. -/
theorem C3_loadHeader_sanitation_witness :
    sanitizeHeader 10 { m_uSavedReports := 255, m_uNextReport := 12 } =
      { m_uSavedReports := 0, m_uNextReport := 0 } :=
  (C3_loadHeader_sanitation 10 { m_uSavedReports := 255, m_uNextReport := 12 }
    (by decide)).trans (by decide)

/-- Claim C4: the header sanitation is idempotent on byte-valued headers. -/
theorem C4_sanitize_idempotent (M : Nat) (h : CApplicationMonitorHeader)
    (hs : h.m_uSavedReports < 256) :
    sanitizeHeader M (sanitizeHeader M h) = sanitizeHeader M h := by
  unfold sanitizeHeader
  simp only [CApplicationMonitorHeader.mk.injEq]
  constructor
  · split_ifs <;> omega
  · split_ifs <;> omega

/-- Witness for C4 at a concrete erased header. -/
theorem C4_sanitize_idempotent_witness :
    sanitizeHeader 10 (sanitizeHeader 10 { m_uSavedReports := 255, m_uNextReport := 40 }) =
      sanitizeHeader 10 { m_uSavedReports := 255, m_uNextReport := 40 } :=
  C4_sanitize_idempotent 10 { m_uSavedReports := 255, m_uNextReport := 40 } (by decide)

/-- Claim C5: for an in-range slot the computed address is
`base + sizeof(Header) + i * sizeof(Report)`, the addresses are strictly
increasing in the slot index, and no byte at or above a slot address lies
in the header region. -/
theorem C5_slot_address_arithmetic (base M pc i : Nat) (hM : 0 < M) (hi : i < M) :
    GetAddressForReport base M pc i = base + sizeofHeader + i * sizeofReport pc ∧
    (∀ j, j < i → GetAddressForReport base M pc j < GetAddressForReport base M pc i) ∧
    ∀ a, GetAddressForReport base M pc i ≤ a → ¬(base ≤ a ∧ a < base + sizeofHeader) := by
  refine ⟨?_, ?_, ?_⟩
  · unfold GetAddressForReport
    rw [if_pos hi]
  · intro j hj
    unfold GetAddressForReport
    rw [if_pos hi, if_pos (by omega : j < M)]
    have hmul : j * sizeofReport pc < i * sizeofReport pc :=
      (Nat.mul_lt_mul_right (by simp [sizeofReport] : 0 < sizeofReport pc)).mpr hj
    omega
  · intro a ha hcontra
    have := GetAddressForReport_ge base M pc i
    omega

/-- Witness for C5 with ten slots, a 2-byte program counter and slot 3. -/
theorem C5_slot_address_arithmetic_witness :
    GetAddressForReport 500 10 2 3 = 500 + sizeofHeader + 3 * sizeofReport 2 ∧
    (∀ j, j < 3 → GetAddressForReport 500 10 2 j < GetAddressForReport 500 10 2 3) ∧
    ∀ a, GetAddressForReport 500 10 2 3 ≤ a → ¬(500 ≤ a ∧ a < 500 + sizeofHeader) :=
  C5_slot_address_arithmetic 500 10 2 3 (by omega) (by omega)

/-- Claim C10: a slot index at or past `maxEntries` is mapped to
`base + sizeof(Header)`, which is exactly the address of slot 0. -/
theorem C10_out_of_range_aliases_slot_zero (base M pc i : Nat) (hi : M ≤ i) :
    GetAddressForReport base M pc i = base + sizeofHeader ∧
    GetAddressForReport base M pc i = GetAddressForReport base M pc 0 := by
  have h1 : GetAddressForReport base M pc i = base + sizeofHeader := by
    unfold GetAddressForReport
    rw [if_neg (by omega)]
  refine ⟨h1, ?_⟩
  rw [h1]
  unfold GetAddressForReport
  split
  · simp
  · rfl

/-- Witness for C10 at slot 12 of a ten-entry log. -/
theorem C10_out_of_range_aliases_slot_zero_witness :
    GetAddressForReport 500 10 2 12 = 500 + sizeofHeader ∧
    GetAddressForReport 500 10 2 12 = GetAddressForReport 500 10 2 0 :=
  C10_out_of_range_aliases_slot_zero 500 10 2 12 (by omega)

/-- Claim C8: construction zeroes the diagnostic word, and `SetData`
followed by `GetData` returns exactly the 32-bit value that was set.
Neither `construct`, `SetData` nor `GetData` takes or produces an `EEPROM`
value: like the source, they touch no non-volatile memory. -/
theorem C8_diagnostic_word (base M : Nat) (junk : List Nat) (m : CApplicationMonitor)
    (v : Nat) (hv : v < 2 ^ 32) :
    GetData (construct base M junk) = 0 ∧ GetData (SetData m v) = v := by
  constructor
  · rfl
  · show v % 2 ^ 32 = v
    exact Nat.mod_eq_of_lt hv

/-- Witness for C8 with the default configuration and `0xCAFEBABE`. -/
theorem C8_diagnostic_word_witness :
    GetData (construct 500 10 [0, 0]) = 0 ∧
    GetData (SetData (construct 500 10 [0, 0]) 3405691582) = 3405691582 :=
  C8_diagnostic_word 500 10 [0, 0] (construct 500 10 [0, 0]) 3405691582 (by norm_num)

/-- Claim C2: saving the in-progress report to an in-range slot and loading
that slot back through `LoadReport` returns the written `m_uData` exactly
and the stored address bytes with the first and last byte swapped. -/
theorem C2_report_round_trip (base M pc : Nat) (e : EEPROM) (r : CCrashReport) (i : Nat)
    (hpc : pc = 2 ∨ pc = 3) (hlen : r.m_auAddress.length = pc)
    (hbytes : ∀ b ∈ r.m_auAddress, b < 256) (hdata : r.m_uData < 2 ^ 32) (hi : i < M) :
    LoadReport base M pc (SaveCurrentReport base M pc r e i) i =
      { m_auAddress := swapFirstLast pc r.m_auAddress, m_uData := r.m_uData } := by
  unfold LoadReport SaveCurrentReport
  have hlenL : (reportBytes r).length = sizeofReport pc := by
    simp [reportBytes, toBytesLE_length, sizeofReport, hlen]
  have h1 : readBytes (writeBytes e (GetAddressForReport base M pc i) (reportBytes r))
      (GetAddressForReport base M pc i) (sizeofReport pc) = reportBytes r := by
    rw [← hlenL, readBytes_writeBytes]
    refine map_mod_self _ ?_
    intro b hb
    simp only [reportBytes, List.mem_append] at hb
    rcases hb with hb | hb
    · exact hbytes b hb
    · exact toBytesLE_lt 4 r.m_uData b hb
  rw [h1]
  simp only [CCrashReport.mk.injEq]
  constructor
  · rw [reportBytes, List.take_left' hlen]
  · rw [reportBytes, List.drop_left' hlen, fromBytesLE_toBytesLE]
    have h2 : (256 : Nat) ^ 4 = 2 ^ 32 := by norm_num
    rw [h2]
    exact Nat.mod_eq_of_lt hdata

/-- Witness for C2: on a 2-byte target, stored address bytes
`[0x12, 0x34]` with data `0xCAFEBABE` read back swapped, and the swapped
bytes denote the little-endian value `0x1234`. -/
theorem C2_report_round_trip_witness :
    LoadReport 500 10 2
        (SaveCurrentReport 500 10 2
          { m_auAddress := [18, 52], m_uData := 3405691582 } (fun _ => 255) 0) 0 =
      { m_auAddress := swapFirstLast 2 [18, 52], m_uData := 3405691582 } ∧
    fromBytesLE (swapFirstLast 2 [18, 52]) = 4660 :=
  ⟨C2_report_round_trip 500 10 2 (fun _ => 255)
      { m_auAddress := [18, 52], m_uData := 3405691582 } 0
      (Or.inl rfl) rfl (by decide) (by norm_num) (by omega),
    by decide⟩

/-- Claim C6: the trap handler writes only the address bytes of the
in-progress report: the four data bytes persisted with the report are
exactly the 32-bit word last passed to `SetData`, and the in-memory data
word is unchanged by the handler. -/
theorem C6_handler_preserves_user_data (pc : Nat) (m : CApplicationMonitor) (e : EEPROM)
    (t : List Nat) (v : Nat) (hv : v < 2 ^ 32) (ht : pc ≤ t.length) :
    GetData (WatchdogInterruptHandler pc (SetData m v) e t).1 = v ∧
    readBytes (WatchdogInterruptHandler pc (SetData m v) e t).2
      (GetAddressForReport m.c_nBaseAddress m.c_nMaxEntries pc
        (LoadHeader e m.c_nBaseAddress m.c_nMaxEntries).m_uNextReport + pc) 4 =
      toBytesLE 4 v := by
  have hgd : GetData (SetData m v) = v := Nat.mod_eq_of_lt hv
  have h := handler_report_data pc (SetData m v) e t ht
  rw [hgd] at h
  exact h

/-- Witness for C6 with `0xCAFEBABE` set before a trap on erased memory. -/
theorem C6_handler_preserves_user_data_witness :
    GetData (WatchdogInterruptHandler 2 (SetData (construct 500 10 [7, 7]) 3405691582)
      (fun _ => 255) [18, 52]).1 = 3405691582 ∧
    readBytes (WatchdogInterruptHandler 2 (SetData (construct 500 10 [7, 7]) 3405691582)
        (fun _ => 255) [18, 52]).2
      (GetAddressForReport (construct 500 10 [7, 7]).c_nBaseAddress
        (construct 500 10 [7, 7]).c_nMaxEntries 2
        (LoadHeader (fun _ => 255) (construct 500 10 [7, 7]).c_nBaseAddress
          (construct 500 10 [7, 7]).c_nMaxEntries).m_uNextReport + 2) 4 =
      toBytesLE 4 3405691582 :=
  C6_handler_preserves_user_data 2 (construct 500 10 [7, 7]) (fun _ => 255) [18, 52]
    3405691582 (by norm_num) (by decide)

theorem SaveHeader_outside {e : EEPROM} {base : Nat} {h : CApplicationMonitorHeader}
    {a : Nat} (ha : a < base ∨ base + sizeofHeader ≤ a) : SaveHeader e base h a = e a := by
  apply writeBytes_outside
  simp only [List.length_cons, List.length_nil, sizeofHeader] at *
  omega

theorem SaveCurrentReport_outside {base M pc : Nat} {r : CCrashReport} {e : EEPROM}
    {slot a : Nat} (hr : r.m_auAddress.length ≤ pc) (hslot : slot < M)
    (ha : a < base ∨ base + sizeofHeader + M * sizeofReport pc ≤ a) :
    SaveCurrentReport base M pc r e slot a = e a := by
  unfold SaveCurrentReport
  apply writeBytes_outside
  have hA : GetAddressForReport base M pc slot =
      base + sizeofHeader + slot * sizeofReport pc := by
    unfold GetAddressForReport
    rw [if_pos hslot]
  have hlen : (reportBytes r).length ≤ sizeofReport pc := by
    simp only [reportBytes, List.length_append, toBytesLE_length, sizeofReport]
    omega
  have hmul : (slot + 1) * sizeofReport pc ≤ M * sizeofReport pc :=
    Nat.mul_le_mul_right _ (by omega)
  have hexp : (slot + 1) * sizeofReport pc = slot * sizeofReport pc + sizeofReport pc := by
    ring
  rcases ha with ha | ha
  · left
    omega
  · right
    omega

/-- Claim C9: the slot index the handler hands to `SaveCurrentReport` (the
sanitized next-report index) is always below `maxEntries`, and the handler
never changes a byte outside the configured log region. -/
theorem C9_trap_write_in_bounds (pc : Nat) (m : CApplicationMonitor) (e : EEPROM)
    (t : List Nat) (hM : 1 ≤ m.c_nMaxEntries) :
    (LoadHeader e m.c_nBaseAddress m.c_nMaxEntries).m_uNextReport < m.c_nMaxEntries ∧
    ∀ a : Nat,
      (a < m.c_nBaseAddress ∨
        m.c_nBaseAddress + sizeofHeader + m.c_nMaxEntries * sizeofReport pc ≤ a) →
      (WatchdogInterruptHandler pc m e t).2 a = e a := by
  have hidx : (LoadHeader e m.c_nBaseAddress m.c_nMaxEntries).m_uNextReport <
      m.c_nMaxEntries := by
    unfold LoadHeader sanitizeHeader
    simp only
    split <;> omega
  refine ⟨hidx, ?_⟩
  intro a ha
  have hsh : (0 : Nat) ≤ m.c_nMaxEntries * sizeofReport pc := Nat.zero_le _
  simp only [WatchdogInterruptHandler]
  refine (SaveHeader_outside ?_).trans (SaveCurrentReport_outside ?_ hidx ha)
  · rcases ha with ha | ha
    · left
      exact ha
    · right
      omega
  · simp only [List.length_take]
    omega

/-- Witness for C9: a trap on erased memory with the default configuration
leaves the byte at address 700, outside the log region, untouched. -/
theorem C9_trap_write_in_bounds_witness :
    (LoadHeader (fun _ => 255) (construct 500 10 [7, 7]).c_nBaseAddress
      (construct 500 10 [7, 7]).c_nMaxEntries).m_uNextReport <
        (construct 500 10 [7, 7]).c_nMaxEntries ∧
    (WatchdogInterruptHandler 2 (construct 500 10 [7, 7]) (fun _ => 255) [18, 52]).2 700 =
      255 :=
  ⟨(C9_trap_write_in_bounds 2 (construct 500 10 [7, 7]) (fun _ => 255) [18, 52]
      (by decide)).1,
   (C9_trap_write_in_bounds 2 (construct 500 10 [7, 7]) (fun _ => 255) [18, 52]
      (by decide)).2 700 (by decide)⟩

theorem dumpLoop_eq (base M pc : Nat) (e : EEPROM) (saved : Nat) :
    ∀ (n j : Nat), saved - j = n →
      dumpLoop base M pc e saved j =
        ((List.range' j n).map (dumpReportLines base M pc e)).flatten := by
  intro n
  induction n with
  | zero =>
    intro j hj
    rw [dumpLoop]
    rw [dif_neg (by omega)]
    simp
  | succ n ih =>
    intro j hj
    rw [dumpLoop]
    rw [dif_pos (by omega), List.range'_succ]
    simp only [List.map_cons, List.flatten_cons]
    rw [ih (j + 1) (by omega)]

/-- Claim C7: when `bOnlyIfPresent` is set and the sanitized header counts
zero saved reports, `Dump` emits nothing at all; and whenever `Dump` emits
anything, its output is the banner, the two header counters, and the
report blocks for slot indices 0 up to the saved count, in order. -/
theorem C7_dump_output (base M pc : Nat) (e : EEPROM) :
    ((LoadHeader e base M).m_uSavedReports = 0 → Dump base M pc e true = []) ∧
    ∀ b : Bool, Dump base M pc e b ≠ [] →
      Dump base M pc e b =
        [PrintEvent.text ("Application Monitor"), PrintEvent.newline,
         PrintEvent.text ("-------------------"), PrintEvent.newline] ++
        PrintValue ("Saved reports: ") (LoadHeader e base M).m_uSavedReports 10 true ++
        PrintValue ("Next report: ") (LoadHeader e base M).m_uNextReport 10 true ++
        ((List.range (LoadHeader e base M).m_uSavedReports).map
          (dumpReportLines base M pc e)).flatten := by
  have hdl := dumpLoop_eq base M pc e (LoadHeader e base M).m_uSavedReports
    (LoadHeader e base M).m_uSavedReports 0 (by omega)
  constructor
  · intro h0
    simp only [Dump]
    rw [h0]
    simp
  · intro b hne
    simp only [Dump] at hne ⊢
    by_cases hc : (!b || (LoadHeader e base M).m_uSavedReports != 0) = true
    · rw [if_pos hc]
      rw [List.range_eq_range', ← hdl]
    · rw [if_neg hc] at hne
      exact absurd rfl hne

/-- Witness for C7: erased memory sanitizes to zero saved reports and an
unconditional dump on an all-zero store emits the banner and counters with
no report blocks. -/
theorem C7_dump_output_witness :
    Dump 500 10 2 (fun _ => 255) true = [] ∧
    Dump 500 10 2 (fun _ => 0) false =
      [PrintEvent.text ("Application Monitor"), PrintEvent.newline,
       PrintEvent.text ("-------------------"), PrintEvent.newline] ++
      PrintValue ("Saved reports: ") (LoadHeader (fun _ => 0) 500 10).m_uSavedReports 10
        true ++
      PrintValue ("Next report: ") (LoadHeader (fun _ => 0) 500 10).m_uNextReport 10
        true ++
      ((List.range (LoadHeader (fun _ => 0) 500 10).m_uSavedReports).map
        (dumpReportLines 500 10 2 (fun _ => 0))).flatten :=
  ⟨(C7_dump_output 500 10 2 (fun _ => 255)).1 (by decide),
   (C7_dump_output 500 10 2 (fun _ => 0)).2 false (by decide)⟩

theorem succ_mod_eq (M j : Nat) (h2 : 2 ≤ M) :
    (j + 1) % M = if j % M + 1 = M then 0 else j % M + 1 := by
  have h1 : (1 : Nat) % M = 1 := Nat.mod_eq_of_lt (by omega)
  have hr : j % M < M := Nat.mod_lt _ (by omega)
  rw [Nat.add_mod, h1]
  by_cases hc : j % M + 1 = M
  · rw [if_pos hc, hc, Nat.mod_self]
  · rw [if_neg hc, Nat.mod_eq_of_lt (by omega)]

theorem rawSaved_le (M j : Nat) : rawSaved M j ≤ M + 1 := by
  unfold rawSaved
  split_ifs <;> omega

theorem raw_step (M j : Nat) (h2 : 2 ≤ M) :
    rawSaved M (j + 1) =
      (if j % M + 1 = M then min (rawSaved M j) M else min (rawSaved M j) M + 1) ∧
    (j + 1) % M = (if j % M + 1 = M then 0 else j % M + 1) := by
  have hr : j % M < M := Nat.mod_lt _ (by omega)
  have hj1 := succ_mod_eq M j h2
  refine ⟨?_, hj1⟩
  have hm1 : (M + 1) % M = 1 := by
    rw [Nat.add_mod_left]
    exact Nat.mod_eq_of_lt (by omega)
  by_cases hw : j % M + 1 = M
  · have hj1v : (j + 1) % M = 0 := by rw [hj1, if_pos hw]
    rw [if_pos hw]
    rcases Nat.lt_or_ge j M with hA | hge
    · have hjm : j % M = j := Nat.mod_eq_of_lt hA
      unfold rawSaved
      split_ifs <;> omega
    · rcases Nat.eq_or_lt_of_le hge with hB | hgt
      · have hjm : j % M = 0 := by rw [← hB, Nat.mod_self]
        unfold rawSaved
        split_ifs <;> omega
      · rcases Nat.eq_or_lt_of_le hgt with hC | hD
        · have hjm : j % M = 1 := by rw [← hC, hm1]
          unfold rawSaved
          split_ifs <;> omega
        · unfold rawSaved
          split_ifs <;> omega
  · have hj1v : (j + 1) % M = j % M + 1 := by rw [hj1, if_neg hw]
    rw [if_neg hw]
    rcases Nat.lt_or_ge j M with hA | hge
    · have hjm : j % M = j := Nat.mod_eq_of_lt hA
      unfold rawSaved
      split_ifs <;> omega
    · rcases Nat.eq_or_lt_of_le hge with hB | hgt
      · have hjm : j % M = 0 := by rw [← hB, Nat.mod_self]
        unfold rawSaved
        split_ifs <;> omega
      · rcases Nat.eq_or_lt_of_le hgt with hC | hD
        · have hjm : j % M = 1 := by rw [← hC, hm1]
          unfold rawSaved
          split_ifs <;> omega
        · unfold rawSaved
          split_ifs <;> omega

theorem sanitize_raw (M k : Nat) (h2 : 2 ≤ M) (h253 : M ≤ 253) :
    sanitizeHeader M { m_uSavedReports := rawSaved M k, m_uNextReport := k % M } =
      { m_uSavedReports := min (rawSaved M k) M, m_uNextReport := k % M } := by
  have hle := rawSaved_le M k
  have hr : k % M < M := Nat.mod_lt _ (by omega)
  unfold sanitizeHeader
  simp only [CApplicationMonitorHeader.mk.injEq]
  constructor
  · split_ifs <;> omega
  · split_ifs <;> omega

theorem nextHeader_raw (M j : Nat) (h2 : 2 ≤ M) (h253 : M ≤ 253) :
    nextHeader M { m_uSavedReports := min (rawSaved M j) M, m_uNextReport := j % M } =
      { m_uSavedReports := rawSaved M (j + 1), m_uNextReport := (j + 1) % M } := by
  have hr : j % M < M := Nat.mod_lt _ (by omega)
  have hle := rawSaved_le M j
  obtain ⟨hs1, hs2⟩ := raw_step M j h2
  have hnext2 : (j % M + 1) % 256 = j % M + 1 := Nat.mod_eq_of_lt (by omega)
  unfold nextHeader
  simp only [CApplicationMonitorHeader.mk.injEq]
  rw [hnext2]
  by_cases hw : j % M + 1 = M
  · rw [if_pos hw] at hs1 hs2
    rw [if_pos (by omega)]
    simp only [CApplicationMonitorHeader.mk.injEq]
    exact ⟨hs1.symm, hs2.symm⟩
  · rw [if_neg hw] at hs1 hs2
    rw [if_neg (by omega)]
    simp only [CApplicationMonitorHeader.mk.injEq]
    constructor
    · rw [hs1]
      omega
    · exact hs2.symm

theorem handler_header (pc : Nat) (m : CApplicationMonitor) (e : EEPROM) (t : List Nat)
    (j : Nat) (h2 : 2 ≤ m.c_nMaxEntries) (h253 : m.c_nMaxEntries ≤ 253)
    (hinv : headerInv m.c_nBaseAddress m.c_nMaxEntries j e) :
    headerInv m.c_nBaseAddress m.c_nMaxEntries (j + 1)
      (WatchdogInterruptHandler pc m e t).2 := by
  obtain ⟨hsan, _⟩ := hinv
  have hLH : LoadHeader e m.c_nBaseAddress m.c_nMaxEntries =
      { m_uSavedReports := min (rawSaved m.c_nMaxEntries j) m.c_nMaxEntries,
        m_uNextReport := j % m.c_nMaxEntries } := hsan
  have hH2 : nextHeader m.c_nMaxEntries (LoadHeader e m.c_nBaseAddress m.c_nMaxEntries) =
      { m_uSavedReports := rawSaved m.c_nMaxEntries (j + 1),
        m_uNextReport := (j + 1) % m.c_nMaxEntries } := by
    rw [hLH]
    exact nextHeader_raw m.c_nMaxEntries j h2 h253
  have h2eq : (WatchdogInterruptHandler pc m e t).2 =
      SaveHeader
        (SaveCurrentReport m.c_nBaseAddress m.c_nMaxEntries pc
          { m.m_CrashReport with m_auAddress := t.take pc } e
          (LoadHeader e m.c_nBaseAddress m.c_nMaxEntries).m_uNextReport)
        m.c_nBaseAddress
        (nextHeader m.c_nMaxEntries (LoadHeader e m.c_nBaseAddress m.c_nMaxEntries)) := rfl
  have hb1 : rawSaved m.c_nMaxEntries (j + 1) ≤ m.c_nMaxEntries + 1 := rawSaved_le _ _
  have hb2 : (j + 1) % m.c_nMaxEntries < m.c_nMaxEntries := Nat.mod_lt _ (by omega)
  have hread : readHeader (WatchdogInterruptHandler pc m e t).2 m.c_nBaseAddress =
      { m_uSavedReports := rawSaved m.c_nMaxEntries (j + 1),
        m_uNextReport := (j + 1) % m.c_nMaxEntries } := by
    rw [h2eq, readHeader_SaveHeader, hH2]
    simp only [CApplicationMonitorHeader.mk.injEq]
    omega
  constructor
  · rw [hread]
    exact sanitize_raw m.c_nMaxEntries (j + 1) h2 h253
  · intro _
    exact hread

theorem runTraps_inv (pc : Nat) :
    ∀ (ts : List (List Nat)) (j : Nat) (m : CApplicationMonitor) (e : EEPROM),
      2 ≤ m.c_nMaxEntries → m.c_nMaxEntries ≤ 253 →
      headerInv m.c_nBaseAddress m.c_nMaxEntries j e →
      (runTraps pc (m, e) ts).1.c_nBaseAddress = m.c_nBaseAddress ∧
      (runTraps pc (m, e) ts).1.c_nMaxEntries = m.c_nMaxEntries ∧
      (runTraps pc (m, e) ts).1.m_CrashReport.m_uData = m.m_CrashReport.m_uData ∧
      headerInv m.c_nBaseAddress m.c_nMaxEntries (j + ts.length)
        (runTraps pc (m, e) ts).2 := by
  intro ts
  induction ts with
  | nil =>
    intro j m e _ _ hinv
    exact ⟨rfl, rfl, rfl, by simpa using hinv⟩
  | cons t ts ih =>
    intro j m e hM2 hM253 hinv
    have hstep := handler_header pc m e t j hM2 hM253 hinv
    have hm1b : (WatchdogInterruptHandler pc m e t).1.c_nBaseAddress = m.c_nBaseAddress :=
      rfl
    have hm1M : (WatchdogInterruptHandler pc m e t).1.c_nMaxEntries = m.c_nMaxEntries :=
      rfl
    have hm1d : (WatchdogInterruptHandler pc m e t).1.m_CrashReport.m_uData =
        m.m_CrashReport.m_uData := rfl
    have happ := ih (j + 1) (WatchdogInterruptHandler pc m e t).1
      (WatchdogInterruptHandler pc m e t).2
      (by rw [hm1M]; exact hM2) (by rw [hm1M]; exact hM253)
      (by rw [hm1b, hm1M]; exact hstep)
    have hpair : ((WatchdogInterruptHandler pc m e t).1,
        (WatchdogInterruptHandler pc m e t).2) = WatchdogInterruptHandler pc m e t := rfl
    rw [hpair] at happ
    have hrun : runTraps pc (m, e) (t :: ts) =
        runTraps pc (WatchdogInterruptHandler pc m e t) ts := rfl
    rw [hrun]
    obtain ⟨ha, hb, hc, hd⟩ := happ
    refine ⟨ha.trans hm1b, hb.trans hm1M, hc.trans hm1d, ?_⟩
    rw [hm1b, hm1M] at hd
    have hlen : j + (t :: ts).length = j + 1 + ts.length := by
      simp only [List.length_cons]
      omega
    rw [hlen]
    exact hd

theorem runTraps_append (pc : Nat) (l1 l2 : List (List Nat)) :
    ∀ s, runTraps pc s (l1 ++ l2) = runTraps pc (runTraps pc s l1) l2 := by
  induction l1 with
  | nil => intro s; rfl
  | cons t ts ih => intro s; exact ih _

theorem handler_slot (pc : Nat) (m : CApplicationMonitor) (e : EEPROM) (t : List Nat)
    (ht : t.length = pc) :
    readBytes (WatchdogInterruptHandler pc m e t).2
      (GetAddressForReport m.c_nBaseAddress m.c_nMaxEntries pc
        (LoadHeader e m.c_nBaseAddress m.c_nMaxEntries).m_uNextReport) (pc + 4) =
      (t ++ toBytesLE 4 m.m_CrashReport.m_uData).map (fun b => b % 256) := by
  have hge := GetAddressForReport_ge m.c_nBaseAddress m.c_nMaxEntries pc
    (LoadHeader e m.c_nBaseAddress m.c_nMaxEntries).m_uNextReport
  have h2eq : (WatchdogInterruptHandler pc m e t).2 =
      SaveHeader
        (SaveCurrentReport m.c_nBaseAddress m.c_nMaxEntries pc
          { m.m_CrashReport with m_auAddress := t.take pc } e
          (LoadHeader e m.c_nBaseAddress m.c_nMaxEntries).m_uNextReport)
        m.c_nBaseAddress
        (nextHeader m.c_nMaxEntries (LoadHeader e m.c_nBaseAddress m.c_nMaxEntries)) := rfl
  rw [h2eq, readBytes_SaveHeader_high _ _ _ _ _ (by omega)]
  unfold SaveCurrentReport
  have hrb : reportBytes { m.m_CrashReport with m_auAddress := t.take pc } =
      t ++ toBytesLE 4 m.m_CrashReport.m_uData := by
    unfold reportBytes
    simp only
    rw [← ht, List.take_length]
  rw [hrb]
  have hL : (t ++ toBytesLE 4 m.m_CrashReport.m_uData).length = pc + 4 := by
    simp [toBytesLE_length, ht]
  rw [← hL, readBytes_writeBytes]

/-- Claim C1, amended: starting from a sanitized-empty header, with
`2 ≤ maxEntries ≤ 253` (the header counters are single bytes and `0xff` is
the erased sentinel), after `k` traps the persisted next-report index is
`k % maxEntries`; the persisted saved count is `k` while `k < maxEntries`
but only `maxEntries - 1` at `k = maxEntries`, because the trap that wraps
the index skips the increment; for `k > maxEntries` the count read back
through `LoadHeader` is `maxEntries`; and the slot at `(k-1) % maxEntries`
holds the bytes of the most recent report. -/
theorem C1_trap_sequence (pc base M d : Nat) (junk : List Nat) (e0 : EEPROM)
    (traps : List (List Nat)) (hM2 : 2 ≤ M) (hM253 : M ≤ 253)
    (hinit : sanitizeHeader M (readHeader e0 base) =
      { m_uSavedReports := 0, m_uNextReport := 0 })
    (htr : ∀ t ∈ traps, t.length = pc ∧ ∀ b ∈ t, b < 256)
    (hne : traps ≠ []) :
    (readHeader (runTraps pc (initialMonitor base M d junk, e0) traps).2
        base).m_uNextReport = traps.length % M ∧
    (traps.length < M →
      (readHeader (runTraps pc (initialMonitor base M d junk, e0) traps).2
        base).m_uSavedReports = traps.length) ∧
    (traps.length = M →
      (readHeader (runTraps pc (initialMonitor base M d junk, e0) traps).2
        base).m_uSavedReports = M - 1) ∧
    (M < traps.length →
      (LoadHeader (runTraps pc (initialMonitor base M d junk, e0) traps).2
        base M).m_uSavedReports = M) ∧
    readBytes (runTraps pc (initialMonitor base M d junk, e0) traps).2
        (GetAddressForReport base M pc ((traps.length - 1) % M)) (pc + 4) =
      traps.getLast hne ++ toBytesLE 4 d := by
  have hinv0 : headerInv base M 0 e0 := by
    constructor
    · rw [hinit]
      have h0 : rawSaved M 0 = 0 := by
        unfold rawSaved
        rw [if_pos (by omega)]
      rw [h0]
      simp
    · intro h
      exact absurd h (by omega)
  obtain ⟨hf1, hf2, hf3, hinvk⟩ :=
    runTraps_inv pc traps 0 (initialMonitor base M d junk) e0 hM2 hM253 hinv0
  obtain ⟨hsank, hrawk⟩ := hinvk
  have hk1 : 1 ≤ traps.length := List.length_pos.mpr hne
  have hraw : readHeader (runTraps pc (initialMonitor base M d junk, e0) traps).2 base =
      { m_uSavedReports := rawSaved M (traps.length),
        m_uNextReport := traps.length % M } := by
    have h1 := hrawk (by omega)
    simp only [Nat.zero_add] at h1
    exact h1
  have hsan : sanitizeHeader M
      (readHeader (runTraps pc (initialMonitor base M d junk, e0) traps).2 base) =
      { m_uSavedReports := min (rawSaved M (traps.length)) M,
        m_uNextReport := traps.length % M } := by
    have h1 := hsank
    simp only [Nat.zero_add] at h1
    exact h1
  refine ⟨?_, ?_, ?_, ?_, ?_⟩
  · rw [hraw]
  · intro hlt
    rw [hraw]
    show rawSaved M traps.length = traps.length
    unfold rawSaved
    rw [if_pos hlt]
  · intro heq
    rw [hraw]
    show rawSaved M traps.length = M - 1
    unfold rawSaved
    split_ifs <;> omega
  · intro hgt
    show (sanitizeHeader M
      (readHeader (runTraps pc (initialMonitor base M d junk, e0) traps).2 base)
        ).m_uSavedReports = M
    rw [hsan]
    show min (rawSaved M traps.length) M = M
    have hgeM : M ≤ rawSaved M traps.length := by
      unfold rawSaved
      split_ifs <;> omega
    omega
  · have hconc : traps.dropLast ++ [traps.getLast hne] = traps :=
      List.dropLast_append_getLast hne
    have hsplit : runTraps pc (initialMonitor base M d junk, e0) traps =
        WatchdogInterruptHandler pc
          (runTraps pc (initialMonitor base M d junk, e0) traps.dropLast).1
          (runTraps pc (initialMonitor base M d junk, e0) traps.dropLast).2
          (traps.getLast hne) := by
      conv_lhs => rw [← hconc]
      rw [runTraps_append]
      rfl
    obtain ⟨hpb, hpM, hpd, hinvp⟩ :=
      runTraps_inv pc traps.dropLast 0 (initialMonitor base M d junk) e0 hM2 hM253 hinv0
    have hpb' : (runTraps pc (initialMonitor base M d junk, e0) traps.dropLast
        ).1.c_nBaseAddress = base := hpb
    have hpM' : (runTraps pc (initialMonitor base M d junk, e0) traps.dropLast
        ).1.c_nMaxEntries = M := hpM
    have hpd' : (runTraps pc (initialMonitor base M d junk, e0) traps.dropLast
        ).1.m_CrashReport.m_uData = d := hpd
    have hLHp : LoadHeader
        (runTraps pc (initialMonitor base M d junk, e0) traps.dropLast).2 base M =
        { m_uSavedReports := min (rawSaved M (traps.length - 1)) M,
          m_uNextReport := (traps.length - 1) % M } := by
      have h1 := hinvp.1
      simp only [Nat.zero_add, List.length_dropLast] at h1
      exact h1
    have hgl := htr (traps.getLast hne) (List.getLast_mem hne)
    have hslot := handler_slot pc
      (runTraps pc (initialMonitor base M d junk, e0) traps.dropLast).1
      (runTraps pc (initialMonitor base M d junk, e0) traps.dropLast).2
      (traps.getLast hne) hgl.1
    rw [hpb', hpM'] at hslot
    have haddr : (LoadHeader
        (runTraps pc (initialMonitor base M d junk, e0) traps.dropLast).2 base M
          ).m_uNextReport = (traps.length - 1) % M := by
      rw [hLHp]
    rw [haddr, hpd'] at hslot
    rw [hsplit, hslot]
    apply map_mod_self
    intro b hb
    rcases List.mem_append.mp hb with hb | hb
    · exact hgl.2 b hb
    · exact toBytesLE_lt 4 d b hb

/-- Claim C1 as stated is false at `k = maxEntries`: with `maxEntries = 2`
and two traps from an all-zero (sanitized-empty) header, the persisted
`savedReports` byte is 1, not 2, because the wrapping trap skips the
increment. -/
theorem C1_counterexample :
    (readHeader (runTraps 2 (initialMonitor 0 2 0 [0, 0], fun _ => 0)
        [[18, 52], [18, 52]]).2 0).m_uSavedReports = 1 ∧
    ¬ (readHeader (runTraps 2 (initialMonitor 0 2 0 [0, 0], fun _ => 0)
        [[18, 52], [18, 52]]).2 0).m_uSavedReports = 2 := by
  decide

/-- Witness for the amended C1: three traps on a two-entry log starting
from an all-zero store. -/
theorem C1_trap_sequence_witness :
    (readHeader (runTraps 2 (initialMonitor 0 2 7 [0, 0], fun _ => 0)
        [[1, 2], [3, 4], [5, 6]]).2 0).m_uNextReport = 1 ∧
    ((3 : Nat) < 2 →
      (readHeader (runTraps 2 (initialMonitor 0 2 7 [0, 0], fun _ => 0)
        [[1, 2], [3, 4], [5, 6]]).2 0).m_uSavedReports = 3) ∧
    ((3 : Nat) = 2 →
      (readHeader (runTraps 2 (initialMonitor 0 2 7 [0, 0], fun _ => 0)
        [[1, 2], [3, 4], [5, 6]]).2 0).m_uSavedReports = 1) ∧
    ((2 : Nat) < 3 →
      (LoadHeader (runTraps 2 (initialMonitor 0 2 7 [0, 0], fun _ => 0)
        [[1, 2], [3, 4], [5, 6]]).2 0 2).m_uSavedReports = 2) ∧
    readBytes (runTraps 2 (initialMonitor 0 2 7 [0, 0], fun _ => 0)
        [[1, 2], [3, 4], [5, 6]]).2 (GetAddressForReport 0 2 2 0) 6 =
      [5, 6] ++ toBytesLE 4 7 :=
  C1_trap_sequence 2 0 2 7 [0, 0] (fun _ => 0) [[1, 2], [3, 4], [5, 6]]
    (by omega) (by omega) (by decide) (by decide) (List.cons_ne_nil _ _)

end Watchdog
